import Mathlib

/-!
Shallow embedding of `urcomputeringpal/workflow-run-history`.

The repository holds two near-duplicate TypeScript implementations of the same
engine: `src/index.ts` and `src/unnamed/part_000`.  The run normalizer, the
status-grouping aggregator and the shape of the percentile queries are shared
verbatim between the two files, so they are embedded once below; the parts
where the two files differ (sort direction inside `WorkflowGroup`, the report
assembly in `summarizeHistory`, the workflow-id resolver) are embedded twice,
in the namespaces `IndexTs` and `Part000`.

Number representation: JavaScript numbers are embedded as `Int` where the
source only ever holds integers (ids, millisecond timestamps, durations) and
as `ℚ` where the source performs divisions (`percentile / 100`,
`index / length * 100`, the success rate).  `Math.floor`, `Math.ceil` and
`Math.round` become `Int.floor`, `Int.ceil` and `⌊q + 1/2⌋` on `ℚ`.
Out-of-range array indexing (which yields `undefined` in JavaScript) is
embedded as `Option`.
-/

namespace WorkflowRunHistory

/-- The `WorkflowRun` interface (identical in both files).  The source keeps
`created_at` and `updated_at` as ISO-8601 strings and parses them with
`new Date(...)` when computing the duration; here the two timestamps are kept
directly as their parsed millisecond values (`Date.prototype.getTime`). -/
structure WorkflowRun where
  id : Nat
  status : String
  created_at_ms : Int
  updated_at_ms : Int
  durationSeconds : Int
deriving DecidableEq, Repr

/-- One raw element of a `listWorkflowRuns` page, with the fields the source
reads.  `conclusion` distinguishes the JavaScript values `undefined`
(`none`), `null` (`some none`) and a string `c` (`some (some c)`), because the
source tests both `=== undefined` and `!== null`. -/
structure ResponseWorkflowRun where
  id : Nat
  status : String
  conclusion : Option (Option String)
  created_at_ms : Int
  updated_at_ms : Int
deriving DecidableEq, Repr

/-- The status list of the guard
`["in_progress", "queued", "requested", "waiting", "pending"].includes(status)`
(identical in both files). -/
def nonTerminalStatuses : List String :=
  ["in_progress", "queued", "requested", "waiting", "pending"]

/-- The per-entry body of the fetch loop of `getWorkflowRuns` (identical in
both files): skip when `conclusion === undefined`; skip when the status is one
of `nonTerminalStatuses`; otherwise build the record with
`durationSeconds = Math.floor((updatedAt.getTime() - createdAt.getTime()) / 1000)`
and overwrite `status` with the conclusion when `conclusion !== null`.
Returns `none` exactly when the entry is skipped. -/
def normalizeRun (r : ResponseWorkflowRun) : Option WorkflowRun :=
  match r.conclusion with
  | none => none
  | some conc =>
    if r.status ∈ nonTerminalStatuses then none
    else
      let durationSeconds : Int := ⌊((r.updated_at_ms - r.created_at_ms : Int) : ℚ) / 1000⌋
      let workflowRun : WorkflowRun :=
        { id := r.id, status := r.status, created_at_ms := r.created_at_ms,
          updated_at_ms := r.updated_at_ms, durationSeconds := durationSeconds }
      some (match conc with
            | some c => { workflowRun with status := c }
            | none => workflowRun)

/-- `Map<string, WorkflowGroup>`: a JavaScript `Map` iterates its keys in
insertion order, so it is embedded as an association list ordered by first
insertion.  A group is represented by its `runs` array. -/
abbrev GroupedRuns := List (String × List WorkflowRun)

/-- `Map.prototype.get`: the value at the first (only) matching key. -/
def mapGet : GroupedRuns → String → Option (List WorkflowRun)
  | [], _ => none
  | sg :: rest, s => if sg.1 = s then some sg.2 else mapGet rest s

/-- One iteration of the `workflowRuns.forEach(groupRun => ...)` aggregation
loop (identical in both files): if the map has no group for the run's status,
`set` a fresh empty group (appended at the end, in `Map` insertion order);
then `get` the group and `push` the run onto its `runs` array. -/
def insertRun (groupedRuns : GroupedRuns) (groupRun : WorkflowRun) : GroupedRuns :=
  if groupRun.status ∈ groupedRuns.map Prod.fst then
    groupedRuns.map (fun sg =>
      if sg.1 = groupRun.status then (sg.1, sg.2 ++ [groupRun]) else sg)
  else
    groupedRuns ++ [(groupRun.status, [groupRun])]

/-- The whole aggregation loop over the collected `workflowRuns` array. -/
def groupRuns (workflowRuns : List WorkflowRun) : GroupedRuns :=
  workflowRuns.foldl insertRun []

/-- `getWorkflowRuns` (identical grouping logic in both files): the fetch loop
normalizes each raw entry of the paginated response into `workflowRuns`
(skipped entries contribute nothing), then the collected runs are grouped by
status.  Pagination and the `try`/`catch` around the fetch only determine
which raw entries are collected, so the embedded function takes the collected
raw sequence as its argument; `part_000` additionally passes a `created` date
range to the API, which likewise only restricts that sequence. -/
def getWorkflowRuns (responseRuns : List ResponseWorkflowRun) : GroupedRuns :=
  groupRuns (responseRuns.filterMap normalizeRun)

/-- `const totalRuns = Array.from(...).reduce((total, group) => total + group.runs.length, 0)`. -/
def totalRunCount (grouped : GroupedRuns) : Nat :=
  (grouped.map (fun sg => sg.2.length)).sum

/-- Bookkeeping for the aggregation proofs (not a source function): the
status keys in the order the grouping loop first creates them. -/
def mapKeys (runs : List WorkflowRun) : List String :=
  runs.foldl (fun ks r => if r.status ∈ ks then ks else ks ++ [r.status]) []

/-! ### Sorting

Both files sort a copy of the durations array with `Array.prototype.sort` and
a numeric comparator: `(a, b) => a - b` sorts ascending, `(a, b) => b - a`
sorts descending.  The comparator sort is embedded as an insertion sort
parameterised by the corresponding boolean order; for a total order the
result is the same sorted permutation the JavaScript engine produces. -/

def insertSorted (le : Int → Int → Bool) (x : Int) : List Int → List Int
  | [] => [x]
  | y :: ys => if le x y then x :: y :: ys else y :: insertSorted le x ys

def sortBy (le : Int → Int → Bool) : List Int → List Int
  | [] => []
  | x :: xs => insertSorted le x (sortBy le xs)

/-- `durations.sort((a, b) => a - b)` — ascending (`src/index.ts`). -/
def sortAsc (l : List Int) : List Int := sortBy (fun a b => decide (a ≤ b)) l

/-- `durations.sort((a, b) => b - a)` — descending (`src/unnamed/part_000`). -/
def sortDesc (l : List Int) : List Int := sortBy (fun a b => decide (b ≤ a)) l

/-- JavaScript array indexing `l[i]`: `undefined` (here `none`) outside
`0 ≤ i < l.length`. -/
def jsGet (l : List Int) (i : Int) : Option Int :=
  if 0 ≤ i then l[i.toNat]? else none

/-- `Math.round`: round half toward positive infinity. -/
def jsRound (q : ℚ) : Int := ⌊q + 1 / 2⌋

namespace IndexTs

/-- `WorkflowGroup.getNthPercentileDuration` of `src/index.ts`: sort the
member durations ascending, take `index = Math.floor((percentile / 100) * n)`
and return `sortedDurations[index]` — with no clamping, so an out-of-range
index yields `undefined` (`none`). -/
def getNthPercentileDuration (runs : List WorkflowRun) (percentile : ℚ) : Option Int :=
  let durations := runs.map (fun run => run.durationSeconds)
  let sortedDurations := sortAsc durations
  let index : Int := ⌊percentile / 100 * (sortedDurations.length : ℚ)⌋
  jsGet sortedDurations index

/-- `WorkflowGroup.getPercentileForDuration` of `src/index.ts`: sort
ascending, `index = findIndex(value => value >= durationSeconds)` (`-1` when
no element qualifies), and return `Math.ceil((index / n) * 100)`.  For an
empty group the JavaScript expression is `-1 / 0 * 100 = -Infinity`, which has
no integer value; that case is embedded as `none`. -/
def getPercentileForDuration (runs : List WorkflowRun) (durationSeconds : Int) : Option Int :=
  let durations := runs.map (fun run => run.durationSeconds)
  let sortedDurations := sortAsc durations
  let index : Int :=
    match sortedDurations.findIdx? (fun value => decide (durationSeconds ≤ value)) with
    | some i => (i : Int)
    | none => -1
  if sortedDurations.length = 0 then none
  else some ⌈(index : ℚ) / (sortedDurations.length : ℚ) * 100⌉

end IndexTs

namespace Part000

/-- `WorkflowGroup.getNthPercentileDuration` of `src/unnamed/part_000`:
identical to the `index.ts` version except that the comparator is
`(a, b) => b - a`, i.e. the durations are sorted descending. -/
def getNthPercentileDuration (runs : List WorkflowRun) (percentile : ℚ) : Option Int :=
  let durations := runs.map (fun run => run.durationSeconds)
  let sortedDurations := sortDesc durations
  let index : Int := ⌊percentile / 100 * (sortedDurations.length : ℚ)⌋
  jsGet sortedDurations index

/-- `WorkflowGroup.getPercentileForDuration` of `src/unnamed/part_000`:
identical to the `index.ts` version except for the descending sort. -/
def getPercentileForDuration (runs : List WorkflowRun) (durationSeconds : Int) : Option Int :=
  let durations := runs.map (fun run => run.durationSeconds)
  let sortedDurations := sortDesc durations
  let index : Int :=
    match sortedDurations.findIdx? (fun value => decide (durationSeconds ≤ value)) with
    | some i => (i : Int)
    | none => -1
  if sortedDurations.length = 0 then none
  else some ⌈(index : ℚ) / (sortedDurations.length : ℚ) * 100⌉

end Part000

/-! ### Report assembly

`core.summary` receives an ordered sequence of headings and tables and a
final `write()`.  The sink is external; what the core hands to it is embedded
as a list of structured sections carrying the computed values (string
rendering belongs to the sink side of the interface). -/

/-- One heading or table handed to the report sink.  `percentileTable` holds
the three queried duration values (99th, 90th, 50th); `breakdownTableExact`
holds the unrounded `(length / totalRuns) * 100` quotients that
`src/index.ts` interpolates directly, while `breakdownTableCeil` holds the
`Math.ceil`-rounded percentages of `src/unnamed/part_000`. -/
inductive SummarySection where
  | historyHeading (workflowName : Option String) (workflowId : Nat)
  | totalRunsHeading (totalRuns : Nat)
  | successRateHeading (ratePct : Int) (successes : Nat) (outOf : Nat)
  | successRunsHeading (count : Nat)
  | failingRunsHeading (count : Nat)
  | percentileTable (p99 p90 p50 : Option Int)
  | breakdownHeading
  | breakdownTableExact (rows : List (String × ℚ))
  | breakdownTableCeil (rows : List (String × Int))
deriving DecidableEq, Repr

namespace IndexTs

/-- The report-assembly part of `summarizeHistory` in `src/index.ts` (the
`.then(groupedWorkflowRuns => ...)` callback).  It reads
`groupedWorkflowRuns.get("success")!` and `...get("failure")!` with no guard:
when either group is absent the callback throws a `TypeError` on the
`undefined` value and `core.summary.write()` is never reached, so no report
is handed to the sink — embedded as `none`.  The breakdown rows interpolate
`(runs.length / totalRuns) * 100` with no rounding. -/
def summarize (groupedWorkflowRuns : GroupedRuns) : Option (List SummarySection) :=
  let total := totalRunCount groupedWorkflowRuns
  match mapGet groupedWorkflowRuns "success", mapGet groupedWorkflowRuns "failure" with
  | some success, some failure =>
    some [SummarySection.totalRunsHeading total,
          SummarySection.successRateHeading
            (jsRound ((success.length : ℚ) / ((success.length : ℚ) + (failure.length : ℚ)) * 100))
            success.length (success.length + failure.length),
          SummarySection.successRunsHeading success.length,
          SummarySection.percentileTable (getNthPercentileDuration success 99)
            (getNthPercentileDuration success 90) (getNthPercentileDuration success 50),
          SummarySection.failingRunsHeading failure.length,
          SummarySection.percentileTable (getNthPercentileDuration failure 99)
            (getNthPercentileDuration failure 90) (getNthPercentileDuration failure 50),
          SummarySection.breakdownHeading,
          SummarySection.breakdownTableExact
            (groupedWorkflowRuns.map (fun sg =>
              (sg.1, (sg.2.length : ℚ) / (total : ℚ) * 100)))]
  | _, _ => none

/-- The workflow-resolver loop at the top of `summarizeHistory` in
`src/index.ts`:

```
let workflow_id = 0;
while (workflow_id === 0) {
  try { workflow_id = (await getWorkflowRun(...)).data.workflow_id; }
  catch { await sleep(1000); console.log("retrying..."); }
}
```

`lookupRun k` is the outcome of the `k`-th API call (`none` when the call
throws).  The loop itself has no exit other than a successful lookup of a
non-zero id; `fuel` is an observation bound added by the embedding so that
the function is total — `none` means the loop is still running after `fuel`
iterations. -/
def resolveWorkflowId (lookupRun : Nat → Option Nat) : Nat → Nat → Option Nat
  | 0, _ => none
  | fuel + 1, attempt =>
    match lookupRun attempt with
    | some workflowId => if workflowId = 0 then resolveWorkflowId lookupRun fuel (attempt + 1)
                         else some workflowId
    | none => resolveWorkflowId lookupRun fuel (attempt + 1)

end IndexTs

namespace Part000

/-- The report-assembly part of `summarizeHistory` in `src/unnamed/part_000`.
Unlike `src/index.ts` it guards every section: the success-rate heading needs
both groups present and a positive combined size, each percentile table needs
its group present and non-empty, and the breakdown (with `Math.ceil`-rounded
percentages) needs a positive total.  The leading history heading uses the
workflow name from the YAML lookup when available, else the raw id. -/
def summarize (workflowName : Option String) (workflowId : Nat)
    (groupedWorkflowRuns : GroupedRuns) : List SummarySection :=
  let total := totalRunCount groupedWorkflowRuns
  let success := mapGet groupedWorkflowRuns "success"
  let failure := mapGet groupedWorkflowRuns "failure"
  [SummarySection.historyHeading workflowName workflowId,
   SummarySection.totalRunsHeading total]
  ++ (match success, failure with
      | some s, some f =>
        if 0 < s.length + f.length then
          [SummarySection.successRateHeading
            (jsRound ((s.length : ℚ) / ((s.length : ℚ) + (f.length : ℚ)) * 100))
            s.length (s.length + f.length)]
        else []
      | _, _ => [])
  ++ (match success with
      | some s =>
        if 0 < s.length then
          [SummarySection.successRunsHeading s.length,
           SummarySection.percentileTable (getNthPercentileDuration s 99)
             (getNthPercentileDuration s 90) (getNthPercentileDuration s 50)]
        else []
      | none => [])
  ++ (match failure with
      | some f =>
        if 0 < f.length then
          [SummarySection.failingRunsHeading f.length,
           SummarySection.percentileTable (getNthPercentileDuration f 99)
             (getNthPercentileDuration f 90) (getNthPercentileDuration f 50)]
        else []
      | none => [])
  ++ (if 0 < total then
        [SummarySection.breakdownHeading,
         SummarySection.breakdownTableCeil
           (groupedWorkflowRuns.map (fun sg =>
             (sg.1, ⌈(sg.2.length : ℚ) / (total : ℚ) * 100⌉)))]
      else [])

/-- The resolver in `src/unnamed/part_000`'s `summarizeHistory` issues a
single `getWorkflowRun` call with no retry: a thrown error propagates to the
caller (rejecting the returned promise), a successful call yields the id. -/
def resolveWorkflowId (lookupRun : Option Nat) : Except Unit Nat :=
  match lookupRun with
  | some workflowId => Except.ok workflowId
  | none => Except.error ()

end Part000

/-! ### Concrete runs used by the evaluation theorems -/

/-- A completed run with the given id, status and duration (timestamps chosen
so that the duration is consistent with the normalizer's formula). -/
def mkRun (i : Nat) (s : String) (d : Int) : WorkflowRun :=
  { id := i, status := s, created_at_ms := 0, updated_at_ms := d * 1000,
    durationSeconds := d }

/-- Discriminator for the breakdown-table section of a report. -/
def isBreakdownTable : SummarySection → Bool
  | SummarySection.breakdownTableCeil _ => true
  | _ => false

/-- A sample raw entry: completed with conclusion `"success"`, 5.5 seconds
between creation and last update. -/
def sampleResponse : ResponseWorkflowRun :=
  { id := 1, status := "completed", conclusion := some (some "success"),
    created_at_ms := 0, updated_at_ms := 5500 }

/-- The record the normalizer produces from `sampleResponse`
(`Math.floor(5500 / 1000) = 5`). -/
def sampleNormalized : WorkflowRun :=
  { id := 1, status := "success", created_at_ms := 0, updated_at_ms := 5500,
    durationSeconds := 5 }

/-- A raw entry still running: the data race the normalizer guards against
(conclusion already present, status still `in_progress`). -/
def sampleInProgress : ResponseWorkflowRun :=
  { id := 2, status := "in_progress", conclusion := some (some "success"),
    created_at_ms := 0, updated_at_ms := 1000 }

/-- A raw entry with no conclusion yet (`conclusion === undefined`). -/
def sampleUndefined : ResponseWorkflowRun :=
  { id := 3, status := "completed", conclusion := none,
    created_at_ms := 0, updated_at_ms := 1000 }

end WorkflowRunHistory

namespace WorkflowRunHistory

/-! ### Helper lemmas -/

theorem int_ceil_eq_neg_floor (q : ℚ) : ⌈q⌉ = -⌊-q⌋ := by
  rw [Int.floor_neg, neg_neg]

theorem insertSorted_perm (le : Int → Int → Bool) (x : Int) (l : List Int) :
    (insertSorted le x l).Perm (x :: l) := by
  induction l with
  | nil => simp [insertSorted]
  | cons y ys ih =>
    simp only [insertSorted]
    by_cases h : le x y
    · simp [h]
    · simp only [h, if_neg, Bool.false_eq_true, not_false_eq_true, ite_false]
      exact (List.Perm.cons y ih).trans (List.Perm.swap x y ys)

theorem sortBy_perm (le : Int → Int → Bool) (l : List Int) : (sortBy le l).Perm l := by
  induction l with
  | nil => simp [sortBy]
  | cons x xs ih =>
    exact (insertSorted_perm le x (sortBy le xs)).trans (List.Perm.cons x ih)

theorem mem_sortBy {le : Int → Int → Bool} {l : List Int} {a : Int} :
    a ∈ sortBy le l ↔ a ∈ l :=
  (sortBy_perm le l).mem_iff

theorem length_sortBy (le : Int → Int → Bool) (l : List Int) :
    (sortBy le l).length = l.length :=
  (sortBy_perm le l).length_eq

/-- A list all of whose elements are equal is left unchanged by any sort;
in particular the ascending and the descending sort agree on it. -/
theorem sortBy_eq_of_const (le : Int → Int → Bool) (l : List Int) (c : Int)
    (h : ∀ x ∈ l, x = c) : sortBy le l = l := by
  have hp := sortBy_perm le l
  have h1 : sortBy le l = List.replicate (sortBy le l).length c :=
    List.eq_replicate_of_mem (fun b hb => h b (hp.subset hb))
  have h2 : l = List.replicate l.length c := List.eq_replicate_of_mem h
  rw [h1, hp.length_eq, ← h2]

theorem normalizeRun_undefined {r : ResponseWorkflowRun} (h : r.conclusion = none) :
    normalizeRun r = none := by
  simp [normalizeRun, h]

theorem normalizeRun_nonterminal {r : ResponseWorkflowRun}
    (h : r.status ∈ nonTerminalStatuses) : normalizeRun r = none := by
  cases hc : r.conclusion with
  | none => simp [normalizeRun, hc]
  | some conc => simp [normalizeRun, hc, h]

theorem normalizeRun_some {r : ResponseWorkflowRun} {w : WorkflowRun}
    (h : normalizeRun r = some w) :
    r.status ∉ nonTerminalStatuses ∧
      w.id = r.id ∧ w.created_at_ms = r.created_at_ms ∧ w.updated_at_ms = r.updated_at_ms ∧
      w.durationSeconds = ⌊((r.updated_at_ms - r.created_at_ms : Int) : ℚ) / 1000⌋ ∧
      ((r.conclusion = some none ∧ w.status = r.status) ∨
        (∃ c, r.conclusion = some (some c) ∧ w.status = c)) := by
  cases hc : r.conclusion with
  | none => simp [normalizeRun, hc] at h
  | some conc =>
    by_cases hs : r.status ∈ nonTerminalStatuses
    · simp [normalizeRun, hc, hs] at h
    · refine ⟨hs, ?_⟩
      cases conc with
      | none =>
        simp only [normalizeRun, hc, hs, if_neg, not_false_eq_true, Option.some_inj] at h
        subst h
        simp
      | some c =>
        simp only [normalizeRun, hc, hs, if_neg, not_false_eq_true, Option.some_inj] at h
        subst h
        simp

/-! ### Characterization of the grouping loop -/

theorem groupRuns_concat (runs : List WorkflowRun) (r : WorkflowRun) :
    groupRuns (runs ++ [r]) = insertRun (groupRuns runs) r := by
  simp [groupRuns, List.foldl_append]

theorem mapKeys_concat (runs : List WorkflowRun) (r : WorkflowRun) :
    mapKeys (runs ++ [r])
      = if r.status ∈ mapKeys runs then mapKeys runs else mapKeys runs ++ [r.status] := by
  simp [mapKeys, List.foldl_append]

theorem mem_mapKeys {runs : List WorkflowRun} {s : String} :
    s ∈ mapKeys runs ↔ s ∈ runs.map (fun r => r.status) := by
  induction runs using List.reverseRecOn generalizing s with
  | nil => simp [mapKeys]
  | append_singleton xs x ih =>
    rw [mapKeys_concat]
    by_cases h : x.status ∈ mapKeys xs
    · have hx : x.status ∈ xs.map (fun r => r.status) := ih.mp h
      rw [if_pos h]
      simp only [List.map_append, List.map_cons, List.map_nil, List.mem_append,
        List.mem_cons, List.not_mem_nil, or_false, ih]
      constructor
      · exact Or.inl
      · rintro (hs | hs)
        · exact hs
        · subst hs; exact hx
    · rw [if_neg h]
      simp [ih]

theorem mapKeys_nodup (runs : List WorkflowRun) : (mapKeys runs).Nodup := by
  induction runs using List.reverseRecOn with
  | nil => simp [mapKeys]
  | append_singleton xs x ih =>
    rw [mapKeys_concat]
    by_cases h : x.status ∈ mapKeys xs
    · simpa [h] using ih
    · simp [h, List.nodup_append, ih, List.Disjoint]
      intro a ha hax
      subst hax
      exact h ha

/-- The aggregation loop computes, for every status key in first-creation
order, the sublist of runs carrying that status. -/
theorem groupRuns_eq (runs : List WorkflowRun) :
    groupRuns runs
      = (mapKeys runs).map (fun s => (s, runs.filter (fun x => decide (x.status = s)))) := by
  induction runs using List.reverseRecOn with
  | nil => simp [groupRuns, mapKeys]
  | append_singleton xs x ih =>
    rw [groupRuns_concat, ih, mapKeys_concat]
    by_cases h : x.status ∈ mapKeys xs
    · rw [if_pos h]
      unfold insertRun
      rw [if_pos (by simpa [List.map_map, Function.comp] using h)]
      rw [List.map_map]
      apply List.map_congr_left
      intro s _
      by_cases hs : s = x.status
      · subst hs
        simp [Function.comp, List.filter_append]
      · have hxs : ¬ x.status = s := fun hh => hs hh.symm
        simp [Function.comp, hs, hxs, List.filter_append]
    · rw [if_neg h]
      unfold insertRun
      rw [if_neg (by simpa [List.map_map, Function.comp] using h)]
      rw [List.map_append]
      congr 1
      · apply List.map_congr_left
        intro s hs
        have hne : ¬ x.status = s := fun hh => h (hh ▸ hs)
        simp [List.filter_append, hne]
      · have hfil : xs.filter (fun y => decide (y.status = x.status)) = [] := by
          rw [List.filter_eq_nil_iff]
          intro a ha
          simp only [decide_eq_true_eq]
          intro hst
          exact h (mem_mapKeys.mpr (List.mem_map.mpr ⟨a, ha, hst⟩))
        simp [List.filter_append, hfil]

theorem keys_groupRuns (runs : List WorkflowRun) :
    (groupRuns runs).map Prod.fst = mapKeys runs := by
  rw [groupRuns_eq, List.map_map]
  have hid : (Prod.fst ∘ fun s => (s, runs.filter (fun x => decide (x.status = s))))
      = fun s : String => s := rfl
  rw [hid]
  exact List.map_id (mapKeys runs)

theorem mem_groupRuns {runs : List WorkflowRun} {sg : String × List WorkflowRun} :
    sg ∈ groupRuns runs
      ↔ sg.1 ∈ mapKeys runs ∧ sg.2 = runs.filter (fun x => decide (x.status = sg.1)) := by
  rw [groupRuns_eq, List.mem_map]
  constructor
  · rintro ⟨s, hs, rfl⟩
    exact ⟨hs, rfl⟩
  · rintro ⟨h1, h2⟩
    exact ⟨sg.1, h1, by rw [← h2]⟩

/-- Summing filtered lengths over a duplicate-free covering key list gives
back the full length. -/
theorem sum_filter_length (ks : List String) (l : List WorkflowRun)
    (hnd : ks.Nodup) (hcov : ∀ r ∈ l, r.status ∈ ks) :
    (ks.map (fun s => (l.filter (fun x => decide (x.status = s))).length)).sum = l.length := by
  induction ks generalizing l with
  | nil =>
    have : l = [] := List.eq_nil_iff_forall_not_mem.mpr (fun a ha => by simpa using hcov a ha)
    simp [this]
  | cons s ks ih =>
    have hnd' : ks.Nodup := hnd.of_cons
    have hsnot : s ∉ ks := by
      have := List.nodup_cons.mp hnd
      exact this.1
    set l' := l.filter (fun x => !decide (x.status = s)) with hl'
    have hcov' : ∀ r ∈ l', r.status ∈ ks := by
      intro r hr
      rw [hl', List.mem_filter] at hr
      have := hcov r hr.1
      rcases List.mem_cons.mp this with h | h
      · exfalso
        have := hr.2
        simp [h] at this
      · exact h
    have hstep : ∀ t ∈ ks,
        l.filter (fun x => decide (x.status = t)) = l'.filter (fun x => decide (x.status = t)) := by
      intro t ht
      have hts : t ≠ s := fun hh => hsnot (hh ▸ ht)
      rw [hl', List.filter_filter]
      apply List.filter_congr
      intro x _
      by_cases hx : x.status = t
      · simp [hx, hts]
      · simp [hx]
    have hmap : ks.map (fun t => (l.filter (fun x => decide (x.status = t))).length)
        = ks.map (fun t => (l'.filter (fun x => decide (x.status = t))).length) := by
      apply List.map_congr_left
      intro t ht
      rw [hstep t ht]
    calc ((s :: ks).map (fun t => (l.filter (fun x => decide (x.status = t))).length)).sum
        = (l.filter (fun x => decide (x.status = s))).length
          + (ks.map (fun t => (l.filter (fun x => decide (x.status = t))).length)).sum := by
          simp
      _ = (l.filter (fun x => decide (x.status = s))).length + l'.length := by
          rw [hmap, ih l' hnd' hcov']
      _ = l.length := by
          rw [hl']
          exact (List.length_eq_length_filter_add
            (fun x : WorkflowRun => decide (x.status = s))).symm

end WorkflowRunHistory


namespace WorkflowRunHistory

/-! ### Further helper lemmas -/

theorem normalizeRun_sample : normalizeRun sampleResponse = some sampleNormalized := by
  norm_num +decide [normalizeRun, sampleResponse, sampleNormalized, nonTerminalStatuses]

/-! ### The claims -/

/-- C1: the claim states that `getNthPercentileDuration` clamps the index
`floor(p/100 * n)` into `[0, n-1]`, returning the minimum at `p = 0` and the
maximum at `p = 100`.  The code has no clamp: on the two-run group with
durations `[10, 20]`, `src/index.ts` at `p = 100` indexes position `2` past
the end and yields `undefined` (`none`) rather than the maximum `20`; and
because `src/unnamed/part_000` sorts descending, its `p = 0` result is the
maximum `20` rather than the minimum `10`. -/
theorem C1_no_clamp_eval :
    IndexTs.getNthPercentileDuration [mkRun 1 "success" 10, mkRun 2 "success" 20] 100 = none
    ∧ (none : Option Int) ≠ some 20
    ∧ Part000.getNthPercentileDuration [mkRun 1 "success" 10, mkRun 2 "success" 20] 0 = some 20
    ∧ (some (20 : Int)) ≠ some 10 := by
  refine ⟨?_, by decide, ?_, by decide⟩
  · norm_num [IndexTs.getNthPercentileDuration, sortAsc, sortBy, insertSorted, jsGet, mkRun]
  · norm_num [Part000.getNthPercentileDuration, sortDesc, sortBy, insertSorted, jsGet, mkRun]

/-- C2 counterexample: the two engines are not equivalent.  On the group with
durations `[1, 2, 3]` at percentile `0`, `src/index.ts` (ascending sort)
returns the minimum `1` while `src/unnamed/part_000` (descending sort)
returns the maximum `3`. -/
theorem C2_sort_direction_counterexample :
    IndexTs.getNthPercentileDuration
        [mkRun 1 "success" 1, mkRun 2 "success" 2, mkRun 3 "success" 3] 0
      ≠ Part000.getNthPercentileDuration
        [mkRun 1 "success" 1, mkRun 2 "success" 2, mkRun 3 "success" 3] 0 := by
  norm_num [IndexTs.getNthPercentileDuration, Part000.getNthPercentileDuration,
    sortAsc, sortDesc, sortBy, insertSorted, jsGet, mkRun]

/-- C2 amended: the two percentile engines agree on a group exactly when the
sort direction cannot matter — here proved for every group whose member
durations are all equal (in particular every singleton group); on such groups
both queries of `src/index.ts` and `src/unnamed/part_000` coincide for every
percentile and every threshold. -/
theorem C2_engines_agree_on_equal_durations (runs : List WorkflowRun) (c : Int)
    (h : ∀ r ∈ runs, r.durationSeconds = c) :
    (∀ p : ℚ, IndexTs.getNthPercentileDuration runs p = Part000.getNthPercentileDuration runs p)
    ∧ (∀ d : Int,
        IndexTs.getPercentileForDuration runs d = Part000.getPercentileForDuration runs d) := by
  have hconst : ∀ x ∈ runs.map (fun run => run.durationSeconds), x = c := by
    intro x hx
    rcases List.mem_map.mp hx with ⟨r, hr, rfl⟩
    exact h r hr
  have hs : sortAsc (runs.map (fun run => run.durationSeconds))
      = sortDesc (runs.map (fun run => run.durationSeconds)) := by
    rw [sortAsc, sortDesc, sortBy_eq_of_const _ _ c hconst, sortBy_eq_of_const _ _ c hconst]
  exact ⟨fun p => by
      simp only [IndexTs.getNthPercentileDuration, Part000.getNthPercentileDuration, hs],
    fun d => by
      simp only [IndexTs.getPercentileForDuration, Part000.getPercentileForDuration, hs]⟩

theorem C2_engines_agree_witness :
    IndexTs.getNthPercentileDuration [mkRun 1 "success" 5] 50
      = Part000.getNthPercentileDuration [mkRun 1 "success" 5] 50 :=
  (C2_engines_agree_on_equal_durations [mkRun 1 "success" 5] 5 (by decide)).1 50

/-- C3: the claimed rank formula `ceil(k/n * 100)` (with `k` the number of
member durations strictly below the threshold) holds for the ascending
implementation of `src/index.ts`, but `src/unnamed/part_000` sorts descending,
so its `findIndex(value => value >= d)` hits the maximum first: on durations
`[1, 2, 3]` with threshold `3` it returns `0` while the claimed value is
`ceil(2/3 * 100) = 67` (which `src/index.ts` indeed returns). -/
theorem C3_descending_rank_eval :
    IndexTs.getPercentileForDuration
        [mkRun 1 "success" 1, mkRun 2 "success" 2, mkRun 3 "success" 3] 3 = some 67
    ∧ Part000.getPercentileForDuration
        [mkRun 1 "success" 1, mkRun 2 "success" 2, mkRun 3 "success" 3] 3 = some 0
    ∧ (([1, 2, 3] : List Int).filter (fun v => decide (v < 3))).length = 2
    ∧ (⌈(2 : ℚ) / 3 * 100⌉ : Int) = 67
    ∧ (some (0 : Int)) ≠ some 67 := by
  refine ⟨?_, ?_, by decide, ?_, by decide⟩
  · norm_num [IndexTs.getPercentileForDuration, sortAsc, sortBy, insertSorted,
      int_ceil_eq_neg_floor, List.findIdx?, mkRun]
  · norm_num [Part000.getPercentileForDuration, sortDesc, sortBy, insertSorted,
      int_ceil_eq_neg_floor, List.findIdx?, mkRun]
  · rw [int_ceil_eq_neg_floor]; norm_num

/-- C4: the resolver of `src/index.ts` is an unbounded `while` loop: under a
lookup that fails on every attempt it is still running after any finite
number of iterations — there is no attempt bound after which it raises — so
the claimed bounded-retry-then-fatal-error behavior does not hold there.  (The
`src/unnamed/part_000` resolver performs a single attempt whose failure
propagates as an error, trivially bounded.) -/
theorem C4_resolver_unbounded :
    (∀ fuel attempt : Nat,
      IndexTs.resolveWorkflowId (fun _ => none) fuel attempt = none)
    ∧ Part000.resolveWorkflowId none = Except.error () := by
  refine ⟨?_, rfl⟩
  intro fuel
  induction fuel with
  | zero => intro attempt; rfl
  | succ n ih => intro attempt; simpa [IndexTs.resolveWorkflowId] using ih (attempt + 1)

/-- C5: on a history whose runs all succeeded (a `success` group exists, no
`failure` group), the `src/index.ts` assembler dereferences
`groupedWorkflowRuns.get("failure")!` — `undefined` — and throws, so no
report reaches the sink (`none`); the claim's guarded behavior is exhibited
by `src/unnamed/part_000`, which omits the success-rate heading and renders
the remaining sections without error. -/
theorem C5_missing_group_eval :
    IndexTs.summarize (groupRuns [mkRun 1 "success" 5]) = none
    ∧ Part000.summarize none 7 (groupRuns [mkRun 1 "success" 5])
      = [SummarySection.historyHeading none 7,
         SummarySection.totalRunsHeading 1,
         SummarySection.successRunsHeading 1,
         SummarySection.percentileTable (some 5) (some 5) (some 5),
         SummarySection.breakdownHeading,
         SummarySection.breakdownTableCeil [("success", 100)]] := by
  constructor
  · norm_num +decide [IndexTs.summarize, groupRuns, insertRun, mapGet, mkRun, List.foldl]
  · norm_num +decide [Part000.summarize, Part000.getNthPercentileDuration, groupRuns,
      insertRun, mapGet, totalRunCount, sortDesc, sortBy, insertSorted, jsGet, mkRun,
      List.foldl, int_ceil_eq_neg_floor]

/-- C6: the status-grouping aggregator partitions its input: group keys are
duplicate-free, every run has a group keyed by its status, a run lies in a
group iff that group's key is the run's status, the group sizes sum to the
number of runs, and no group is empty. -/
theorem C6_grouping_partition (runs : List WorkflowRun) :
    ((groupRuns runs).map Prod.fst).Nodup
    ∧ (∀ r ∈ runs, ∃ sg ∈ groupRuns runs, sg.1 = r.status)
    ∧ (∀ r ∈ runs, ∀ sg ∈ groupRuns runs, (r ∈ sg.2 ↔ sg.1 = r.status))
    ∧ ((groupRuns runs).map (fun sg => sg.2.length)).sum = runs.length
    ∧ (∀ sg ∈ groupRuns runs, sg.2 ≠ []) := by
  refine ⟨?_, ?_, ?_, ?_, ?_⟩
  · rw [keys_groupRuns]
    exact mapKeys_nodup runs
  · intro r hr
    exact ⟨(r.status, runs.filter (fun x => decide (x.status = r.status))),
      mem_groupRuns.mpr ⟨mem_mapKeys.mpr (List.mem_map.mpr ⟨r, hr, rfl⟩), rfl⟩, rfl⟩
  · intro r hr sg hsg
    rcases mem_groupRuns.mp hsg with ⟨_, hval⟩
    constructor
    · intro hmem
      rw [hval, List.mem_filter] at hmem
      have h2 := hmem.2
      simp only [decide_eq_true_eq] at h2
      exact h2.symm
    · intro hkeyeq
      rw [hval, List.mem_filter]
      refine ⟨hr, ?_⟩
      rw [hkeyeq]
      simp
  · rw [groupRuns_eq, List.map_map]
    have hid : ((fun sg : String × List WorkflowRun => sg.2.length)
        ∘ fun s => (s, runs.filter (fun x => decide (x.status = s))))
        = fun s => (runs.filter (fun x => decide (x.status = s))).length := rfl
    rw [hid]
    exact sum_filter_length (mapKeys runs) runs (mapKeys_nodup runs)
      (fun r hr => mem_mapKeys.mpr (List.mem_map.mpr ⟨r, hr, rfl⟩))
  · intro sg hsg
    rcases mem_groupRuns.mp hsg with ⟨hkey, hval⟩
    rcases List.mem_map.mp (mem_mapKeys.mp hkey) with ⟨r, hr, hst⟩
    intro hnil
    rw [hval, List.filter_eq_nil_iff] at hnil
    exact hnil r hr (by simp [hst])

theorem C6_grouping_partition_witness :
    (mkRun 1 "success" 5 ∈ [mkRun 1 "success" 5] ↔ "success" = (mkRun 1 "success" 5).status)
    ∧ ((groupRuns [mkRun 1 "success" 5, mkRun 2 "failure" 9]).map
        (fun sg => sg.2.length)).sum = 2 :=
  ⟨(C6_grouping_partition [mkRun 1 "success" 5, mkRun 2 "failure" 9]).2.2.1
      (mkRun 1 "success" 5) (by decide) ("success", [mkRun 1 "success" 5]) (by decide),
   (C6_grouping_partition [mkRun 1 "success" 5, mkRun 2 "failure" 9]).2.2.2.1⟩

/-- C7: provided the source's non-null conclusion values are terminal
outcomes (never one of the five non-terminal state names, as the platform
guarantees for a finished run's conclusion), none of `in_progress`, `queued`,
`requested`, `waiting`, `pending` ever appears as a key of the grouped map;
moreover an entry with undefined conclusion or a non-terminal status is
discarded, and a retained record's status is the conclusion value whenever
the conclusion is non-null. -/
theorem C7_nonterminal_never_keys (responseRuns : List ResponseWorkflowRun)
    (hsource : ∀ raw ∈ responseRuns, ∀ c : String,
      raw.conclusion = some (some c) → c ∉ nonTerminalStatuses) :
    (∀ sg ∈ getWorkflowRuns responseRuns, sg.1 ∉ nonTerminalStatuses)
    ∧ (∀ raw ∈ responseRuns, raw.conclusion = none → normalizeRun raw = none)
    ∧ (∀ raw ∈ responseRuns, raw.status ∈ nonTerminalStatuses → normalizeRun raw = none)
    ∧ (∀ raw ∈ responseRuns, ∀ (c : String) (w : WorkflowRun),
        raw.conclusion = some (some c) → normalizeRun raw = some w → w.status = c) := by
  refine ⟨?_, fun raw _ h => normalizeRun_undefined h,
    fun raw _ h => normalizeRun_nonterminal h, ?_⟩
  · intro sg hsg
    rcases mem_groupRuns.mp hsg with ⟨hkey, _⟩
    rcases List.mem_map.mp (mem_mapKeys.mp hkey) with ⟨w, hw, hst⟩
    rcases List.mem_filterMap.mp hw with ⟨raw, hraw, hnorm⟩
    rcases (normalizeRun_some hnorm).2.2.2.2.2 with ⟨_, hstat⟩ | ⟨c, hc, hstat⟩
    · rw [← hst, hstat]
      exact (normalizeRun_some hnorm).1
    · rw [← hst, hstat]
      exact hsource raw hraw c hc
  · intro raw _ c w hc hw
    rcases (normalizeRun_some hw).2.2.2.2.2 with ⟨hc2, _⟩ | ⟨c2, hc2, hstat⟩
    · rw [hc] at hc2
      simp at hc2
    · rw [hc] at hc2
      simp only [Option.some_inj] at hc2
      rw [hstat, ← hc2]

theorem C7_nonterminal_never_keys_witness :
    normalizeRun sampleUndefined = none :=
  (C7_nonterminal_never_keys [sampleResponse, sampleInProgress, sampleUndefined]
      (by simp +decide [sampleResponse, sampleInProgress, sampleUndefined,
        nonTerminalStatuses])).2.1
    sampleUndefined (by decide) rfl

/-- C8: every record the normalizer retains carries
`durationSeconds = floor((updated_at - created_at) / 1000)` over the parsed
millisecond timestamps, and the value is non-negative whenever the entry's
timestamps are well-formed (`created_at ≤ updated_at`, which the source
guarantees since a run is only updated after it is created). -/
theorem C8_duration_floor_nonneg (raw : ResponseWorkflowRun) (w : WorkflowRun)
    (hw : normalizeRun raw = some w) :
    w.durationSeconds = ⌊((raw.updated_at_ms - raw.created_at_ms : Int) : ℚ) / 1000⌋
    ∧ (raw.created_at_ms ≤ raw.updated_at_ms → 0 ≤ w.durationSeconds) := by
  have h := normalizeRun_some hw
  refine ⟨h.2.2.2.2.1, ?_⟩
  intro hle
  rw [h.2.2.2.2.1, Int.floor_nonneg]
  have hnum : (0 : ℚ) ≤ ((raw.updated_at_ms - raw.created_at_ms : Int) : ℚ) := by
    exact_mod_cast sub_nonneg.mpr hle
  positivity

theorem C8_duration_floor_nonneg_witness :
    sampleNormalized.durationSeconds
      = ⌊((sampleResponse.updated_at_ms - sampleResponse.created_at_ms : Int) : ℚ) / 1000⌋
    ∧ 0 ≤ sampleNormalized.durationSeconds :=
  ⟨(C8_duration_floor_nonneg sampleResponse sampleNormalized normalizeRun_sample).1,
   (C8_duration_floor_nonneg sampleResponse sampleNormalized normalizeRun_sample).2
     (by decide)⟩

/-- C9 counterexample: the `src/index.ts` breakdown rows carry the exact
unrounded quotient `(length / totalRuns) * 100`: with two successes and one
failure the success row reads `200/3`, which is not the claimed
`ceil(2/3 * 100) = 67` (and the failure row `100/3` is not `ceil(1/3 * 100)
= 34`). -/
theorem C9_breakdown_unrounded_counterexample :
    IndexTs.summarize (groupRuns
        [mkRun 1 "success" 10, mkRun 2 "success" 20, mkRun 3 "failure" 30])
      = some [SummarySection.totalRunsHeading 3,
              SummarySection.successRateHeading 67 2 3,
              SummarySection.successRunsHeading 2,
              SummarySection.percentileTable (some 20) (some 20) (some 20),
              SummarySection.failingRunsHeading 1,
              SummarySection.percentileTable (some 30) (some 30) (some 30),
              SummarySection.breakdownHeading,
              SummarySection.breakdownTableExact
                [("success", 200 / 3), ("failure", 100 / 3)]]
    ∧ (200 : ℚ) / 3 ≠ ((⌈(2 : ℚ) / 3 * 100⌉ : Int) : ℚ)
    ∧ (100 : ℚ) / 3 ≠ ((⌈(1 : ℚ) / 3 * 100⌉ : Int) : ℚ) := by
  refine ⟨?_, ?_, ?_⟩
  · norm_num +decide [IndexTs.summarize, IndexTs.getNthPercentileDuration, groupRuns,
      insertRun, mapGet, totalRunCount, sortAsc, sortBy, insertSorted, jsGet, jsRound,
      mkRun, List.foldl]
  · rw [int_ceil_eq_neg_floor]
    norm_num
  · rw [int_ceil_eq_neg_floor]
    norm_num

/-- C9 amended: the guarded variant (`src/unnamed/part_000`) emits, exactly
when the total run count is positive, one breakdown table whose rows list
every observed status in first-creation order with the `Math.ceil`-rounded
share `ceil(length / totalRuns * 100)`; the `src/index.ts` variant instead
interpolates the unrounded quotient (see the counterexample). -/
theorem C9_breakdown_ceil_part000 (workflowName : Option String) (workflowId : Nat)
    (grouped : GroupedRuns) (hpos : 0 < totalRunCount grouped) :
    (Part000.summarize workflowName workflowId grouped).filter isBreakdownTable
      = [SummarySection.breakdownTableCeil (grouped.map (fun sg =>
          (sg.1, ⌈(sg.2.length : ℚ) / (totalRunCount grouped : ℚ) * 100⌉)))] := by
  unfold Part000.summarize
  simp only [List.filter_append]
  rcases mapGet grouped "success" with _ | s <;>
    rcases mapGet grouped "failure" with _ | f <;>
      simp [isBreakdownTable, hpos, apply_ite (List.filter isBreakdownTable)]

theorem C9_breakdown_ceil_part000_witness :
    (Part000.summarize none 7 (groupRuns [mkRun 1 "success" 5])).filter isBreakdownTable
      = [SummarySection.breakdownTableCeil
          ((groupRuns [mkRun 1 "success" 5]).map (fun sg =>
            (sg.1, ⌈(sg.2.length : ℚ)
              / (totalRunCount (groupRuns [mkRun 1 "success" 5]) : ℚ) * 100⌉)))] :=
  C9_breakdown_ceil_part000 none 7 (groupRuns [mkRun 1 "success" 5]) (by decide)

/-- C10: when a non-empty group contains no duration reaching the threshold,
`findIndex` returns `-1` and both implementations return
`Math.ceil(-1/n * 100)`, a non-positive number — neither `100`, nor an
out-of-range access, nor an error. -/
theorem C10_percentile_rank_notfound (runs : List WorkflowRun) (d : Int)
    (hne : runs ≠ []) (hall : ∀ r ∈ runs, r.durationSeconds < d) :
    IndexTs.getPercentileForDuration runs d = some ⌈(-1 : ℚ) / (runs.length : ℚ) * 100⌉
    ∧ Part000.getPercentileForDuration runs d = some ⌈(-1 : ℚ) / (runs.length : ℚ) * 100⌉
    ∧ ⌈(-1 : ℚ) / (runs.length : ℚ) * 100⌉ ≤ 0 := by
  have hlen0 : runs.length ≠ 0 := fun h => hne (List.length_eq_zero.mp h)
  have hidx : ∀ le : Int → Int → Bool,
      (sortBy le (runs.map (fun run => run.durationSeconds))).findIdx?
        (fun value => decide (d ≤ value)) = none := by
    intro le
    refine List.findIdx?_eq_none_iff.mpr (fun v hv => ?_)
    rcases List.mem_map.mp ((sortBy_perm le _).subset hv) with ⟨r, hr, rfl⟩
    simp only [decide_eq_false_iff_not, not_le]
    exact hall r hr
  have hlen : ∀ le : Int → Int → Bool,
      (sortBy le (runs.map (fun run => run.durationSeconds))).length = runs.length := by
    intro le
    rw [length_sortBy, List.length_map]
  have hle0 : ⌈(-1 : ℚ) / (runs.length : ℚ) * 100⌉ ≤ 0 := by
    rw [Int.ceil_le]
    have h1 : (-1 : ℚ) / (runs.length : ℚ) * 100 = -(100 / (runs.length : ℚ)) := by ring
    have h2 : (0 : ℚ) ≤ 100 / (runs.length : ℚ) := by positivity
    rw [h1]
    push_cast
    linarith
  refine ⟨?_, ?_, hle0⟩
  · simp only [IndexTs.getPercentileForDuration, sortAsc, hidx, hlen]
    rw [if_neg hlen0]
    norm_num
  · simp only [Part000.getPercentileForDuration, sortDesc, hidx, hlen]
    rw [if_neg hlen0]
    norm_num

theorem C10_percentile_rank_notfound_witness :
    IndexTs.getPercentileForDuration [mkRun 1 "success" 5] 6
      = some ⌈(-1 : ℚ) / (([mkRun 1 "success" 5] : List WorkflowRun).length : ℚ) * 100⌉
    ∧ Part000.getPercentileForDuration [mkRun 1 "success" 5] 6
      = some ⌈(-1 : ℚ) / (([mkRun 1 "success" 5] : List WorkflowRun).length : ℚ) * 100⌉
    ∧ ⌈(-1 : ℚ) / (([mkRun 1 "success" 5] : List WorkflowRun).length : ℚ) * 100⌉ ≤ 0 :=
  C10_percentile_rank_notfound [mkRun 1 "success" 5] 6 (by decide) (by decide)

end WorkflowRunHistory
